import Mathlib

set_option maxHeartbeats 1000000

/-!
Shallow embedding of `src/extract_zip.py` (class `ExtractZip`): a zip
extraction utility driven by a CSV manifest.  Paths are modelled as lists of
components (a string path is split on the separator, empty components
dropped); the filesystem is a set of directories plus an association list of
files carrying bytes and an (atime, mtime) pair; the composite
`time.mktime(datetime.strptime(s, fmt).timetuple())` is an abstract
parameter `pd : String → String → Option Int` (`none` models a `ValueError`
from `strptime`).
-/

namespace ExtractZipModel

/-- A filesystem path, as a list of components. -/
abbrev Path := List String

/-- Contents of a regular file: its bytes and its access/modification times. -/
structure FileRec where
  data : List Nat
  atime : Int
  mtime : Int
deriving Repr, DecidableEq

/-- A filesystem state: the set of existing directories (as a list of paths,
with membership semantics) and the existing regular files (association list;
the most recent write is at the head). -/
structure FS where
  dirs : List Path
  files : List (Path × FileRec)
deriving Repr

/-- Is `p` a directory in `fs`? -/
def FS.isDir (fs : FS) (p : Path) : Bool := fs.dirs.contains p

/-- The file record stored at `p`, if `p` is a regular file. -/
def FS.getFile (fs : FS) (p : Path) : Option FileRec :=
  (fs.files.find? (fun e => e.1 == p)).map (fun e => e.2)

/-- Split a character list at every occurrence of `sep` (the accumulator
holds the current component, reversed). -/
def splitPathAux (sep : Char) : List Char → List Char → List String
  | [], acc => [String.mk acc.reverse]
  | c :: cs, acc =>
    if c == sep then String.mk acc.reverse :: splitPathAux sep cs []
    else splitPathAux sep cs (c :: acc)

/-- Convert a path string to components: split on the separator and drop
empty components (so a trailing separator does not add a component). -/
def splitPath (s : String) : Path :=
  (splitPathAux '/' s.data []).filter (fun c => c != "")

/-- Does the path string end with the separator (`str.endswith('/')`)? -/
def endsWithSep (s : String) : Bool :=
  match s.data.getLast? with
  | some c => c == '/'
  | none => false

/-- All non-trivial prefixes of `p`, shortest first: for `[a,b]` this is
`[[a], [a,b]]`.  These are the directories `os.makedirs` ensures. -/
def chainsOf (p : Path) : List Path :=
  (List.range p.length).map (fun i => p.take (i + 1))

/-- The proper ancestors of `p` (all non-trivial strict prefixes): the
directories that must already exist for `open(p, 'wb')` to succeed. -/
def ancestorsOf (p : Path) : List Path :=
  (List.range (p.length - 1)).map (fun i => p.take (i + 1))

/-- `os.makedirs(p, exist_ok=True)`: fails if any prefix of `p` exists as a
regular file, otherwise ensures every prefix is a directory. -/
def FS.mkdirs (fs : FS) (p : Path) : Option FS :=
  if (chainsOf p).all (fun q => (fs.getFile q).isNone)
  then some { fs with dirs := chainsOf p ++ fs.dirs }
  else none

/-- `open(p, 'wb')` + `write` + `os.utime`: requires a non-empty path whose
proper ancestors are all directories and which is not itself a directory;
replaces any existing file contents in full. -/
def FS.write (fs : FS) (p : Path) (fr : FileRec) : Option FS :=
  if p.isEmpty then none
  else if (ancestorsOf p).all (fun q => fs.isDir q) && !(fs.isDir p)
  then some { fs with files := (p, fr) :: fs.files }
  else none

/-- Well-formedness of a filesystem: no path is both a directory and a file. -/
def FS.wf (fs : FS) : Prop := ∀ p : Path, p ∈ fs.dirs → fs.getFile p = none

/-- The zip archive handle: its entries (name ↦ bytes), whether the handle
has been closed, and whether an attempt to close it raises. -/
structure Zip where
  entries : List (String × List Nat)
  closed : Bool
  closeFails : Bool
deriving Repr

/-- Errors raised by the Python code (exception taxonomy of the source). -/
inductive Err where
  /-- `zipfile.BadZipFile` or `FileNotFoundError` from `zipfile.ZipFile(...)`. -/
  | archiveOpenErr : Err
  /-- an error from `pd.read_csv` (file unreadable or unparseable). -/
  | manifestErr : Err
  /-- `KeyError` from `self.df[[...]]` when required columns are missing:
  pandas raises a single `KeyError` naming all the missing columns (in
  request order). -/
  | colKeyErr (cols : List String) : Err
  /-- `ValueError` from `datetime.strptime`: carries the raw value and the
  format (as the message does), but no row index and no field name. -/
  | dateErr (raw : String) (fmt : String) : Err
  /-- `KeyError` from `ZipFile.read` when the named entry is absent. -/
  | entryKeyErr (name : String) : Err
  /-- `ValueError` from reading a `ZipFile` that was already closed. -/
  | zipClosedErr : Err
  /-- `OSError` from `os.makedirs` (a prefix exists as a regular file). -/
  | fsMkdirErr (p : Path) : Err
  /-- `OSError` from `open(..., 'wb')` (missing parent, or target is a
  directory). -/
  | fsWriteErr (p : Path) : Err
deriving Repr, DecidableEq

/-- `ZipFile.read(name)`. -/
def zipRead (z : Zip) (name : String) : Except Err (List Nat) :=
  if z.closed then .error .zipClosedErr
  else
    match (z.entries.find? (fun e => e.1 == name)) with
    | some e => .ok e.2
    | none => .error (.entryKeyErr name)

/-- Observable events of one `extract` run, in order of occurrence. -/
inductive Event where
  /-- the `print(zipped, out_path, creation_date, modified_date)` call. -/
  | printE (name : String) (dest : String) (c : Int) (m : Int) : Event
  /-- a successful `self.zip_file.read(zipped)`. -/
  | readE (name : String) : Event
  /-- a successful `os.makedirs(out_path, exist_ok=True)`. -/
  | mkdirE (p : Path) : Event
  /-- a successful `open/write/utime` of a file with the given bytes and
  (atime, mtime). -/
  | writeE (p : Path) (data : List Nat) (a : Int) (m : Int) : Event
deriving Repr, DecidableEq

/-- Is the event a filesystem effect (directory creation or file write)? -/
def Event.isFsEffect : Event → Bool
  | .mkdirE _ => true
  | .writeE _ _ _ _ => true
  | _ => false

/-- The filesystem effects of a trace, in order. -/
def fsEffects (tr : List Event) : List Event := tr.filter Event.isFsEffect

/-- One manifest record, as selected by
`self.df[[input_col, output_col, creation_date_col, modified_date_col]]`. -/
structure Row where
  inp : String
  dest : String
  cdate : String
  mdate : String
deriving Repr, DecidableEq

/-- Result of an `extract` run: the final filesystem and the event trace;
on an error the filesystem at the moment the exception was raised is kept
(the Python exception does not roll anything back). -/
inductive RunResult where
  | ok (fs : FS) (tr : List Event) : RunResult
  | err (e : Err) (fs : FS) (tr : List Event) : RunResult
deriving Repr

/-- The state-independent part of one iteration of the `extract` loop, in
source order: parse `creation_date`, parse `modified_date` (a failure models
the `ValueError` raised by `strptime`), then read the entry from the zip
(always performed, regardless of the destination kind).  On an error the
second component records the events already emitted (the `print` runs before
the zip read). -/
structure RowPlan where
  c : Int
  m : Int
  data : List Nat
  toDir : Bool
  path : Path
deriving Repr, DecidableEq

/-- Compute the plan of one row (the `strptime`/`mktime` calls, the `print`,
the `ZipFile.read`, and the trailing-separator classification). -/
def planRow (pd : String → String → Option Int) (fmt : String) (z : Zip)
    (r : Row) : Except (Err × List Event) RowPlan :=
  match pd fmt r.cdate with
  | none => .error (.dateErr r.cdate fmt, [])
  | some c =>
    match pd fmt r.mdate with
    | none => .error (.dateErr r.mdate fmt, [])
    | some m =>
      match zipRead z r.inp with
      | .error e => .error (e, [.printE r.inp r.dest c m])
      | .ok data =>
        .ok ⟨c, m, data, endsWithSep r.dest, splitPath r.dest⟩

/-- The events a successfully executed row leaves in the trace. -/
def RowPlan.events (pl : RowPlan) (r : Row) : List Event :=
  [.printE r.inp r.dest pl.c pl.m, .readE r.inp,
   if pl.toDir then .mkdirE pl.path else .writeE pl.path pl.data pl.c pl.m]

/-- The events already emitted when the filesystem operation of a row
raises. -/
def RowPlan.preEvents (pl : RowPlan) (r : Row) : List Event :=
  [.printE r.inp r.dest pl.c pl.m, .readE r.inp]

/-- The filesystem operation of a row: `os.makedirs(out_path, exist_ok=True)`
for a destination ending in the separator, otherwise the
`open/write/utime` sequence. -/
def RowPlan.applyFS (pl : RowPlan) (fs : FS) : Option FS :=
  if pl.toDir then fs.mkdirs pl.path else fs.write pl.path ⟨pl.data, pl.c, pl.m⟩

/-- The exception raised when the filesystem operation of a row fails. -/
def RowPlan.failErr (pl : RowPlan) : Err :=
  if pl.toDir then .fsMkdirErr pl.path else .fsWriteErr pl.path

/-- The per-row loop of `ExtractZip.extract`, faithful to the source order:
parse `creation_date`, parse `modified_date`, print, read the entry from the
zip (unconditionally), then branch on whether the output path ends with the
separator. -/
def runRows (pd : String → String → Option Int) (fmt : String) (z : Zip) :
    List Row → FS → RunResult
  | [], fs => .ok fs []
  | r :: rest, fs =>
    match planRow pd fmt z r with
    | .error (e, evs) => .err e fs evs
    | .ok pl =>
      match pl.applyFS fs with
      | none => .err pl.failErr fs (pl.preEvents r)
      | some fs1 =>
        match runRows pd fmt z rest fs1 with
        | .ok t tr => .ok t (pl.events r ++ tr)
        | .err e t tr => .err e t (pl.events r ++ tr)

/-- The parsed manifest, as produced by `pd.read_csv`: a header naming the
columns and the data rows (each a list of cells aligned with the header). -/
structure CSV where
  header : List String
  rows : List (List String)
deriving Repr

/-- Cell of a data row under a resolved column index. -/
def cellAt (row : List String) (i : Nat) : String := (row.get? i).getD ""

/-- The requested columns that are absent from the header, in request
order — the columns a pandas `KeyError` from `df[[...]]` names. -/
def missingCols (csv : CSV) (c1 c2 c3 c4 : String) : List String :=
  [c1, c2, c3, c4].filter (fun c => !(csv.header.contains c))

/-- Column selection `self.df[[c1, c2, c3, c4]]`: raises one `KeyError`
naming all the requested columns absent from the header; when none is
missing it yields the per-row tuples that `itertuples` iterates. -/
def selectCols (csv : CSV) (c1 c2 c3 c4 : String) : Except Err (List Row) :=
  match missingCols csv c1 c2 c3 c4 with
  | [] =>
    .ok (csv.rows.map (fun r =>
      ⟨cellAt r (csv.header.indexOf c1), cellAt r (csv.header.indexOf c2),
       cellAt r (csv.header.indexOf c3), cellAt r (csv.header.indexOf c4)⟩))
  | miss => .error (.colKeyErr miss)

/-- The state of an `ExtractZip` object.  `closedAttr = some b` means the
`_closed` attribute is set to `b`; `none` models an object whose
construction failed before `self._closed = False` ran (`getattr` with
default `True` then treats it as closed).  `closeAttempts` counts the calls
made to `self.zip_file.close()`. -/
structure Session where
  zip : Zip
  csv : CSV
  inpCol : String
  outCol : String
  cdateCol : String
  mdateCol : String
  closedAttr : Option Bool
  closeAttempts : Nat
deriving Repr

/-- `ExtractZip.__init__`: opens the zip (`ArchiveOpenErr` if that fails),
reads the CSV (`ManifestErr` if that fails), stores the column names and
sets `_closed = False`.  No column-presence check is performed here. -/
def initSession (zipSrc : Option Zip) (csvSrc : Option CSV)
    (c1 c2 c3 c4 : String) : Except Err Session :=
  match zipSrc with
  | none => .error .archiveOpenErr
  | some z =>
    match csvSrc with
    | none => .error .manifestErr
    | some csv =>
      .ok { zip := z, csv := csv, inpCol := c1, outCol := c2,
            cdateCol := c3, mdateCol := c4,
            closedAttr := some false, closeAttempts := 0 }

/-- `ExtractZip.extract(date_format)`: select the four configured columns
(KeyError here if one is missing, before any row is processed), then run the
per-row loop. -/
def extract (pd : String → String → Option Int) (s : Session) (fmt : String)
    (fs : FS) : RunResult :=
  match selectCols s.csv s.inpCol s.outCol s.cdateCol s.mdateCol with
  | .error e => .err e fs []
  | .ok rows => runRows pd fmt s.zip rows fs

/-- Result of `ExtractZip.close()`: the state after the call, and whether
the call raised (the `finally` block runs in both cases). -/
inductive CloseResult where
  | ok (s : Session) : CloseResult
  | err (s : Session) : CloseResult
deriving Repr

/-- The state a `CloseResult` carries. -/
def CloseResult.state : CloseResult → Session
  | .ok s => s
  | .err s => s

/-- Did the close call complete without raising? -/
def CloseResult.isOk : CloseResult → Bool
  | .ok _ => true
  | .err _ => false

/-- `ExtractZip.close()`: `if not getattr(self, "_closed", True)` guard,
then `try: self.zip_file.close() finally: self._closed = True`.  The flag is
set even when the underlying close raises, and the exception propagates. -/
def close (s : Session) : CloseResult :=
  match s.closedAttr with
  | some false =>
    let s1 : Session :=
      { s with zip := { s.zip with closed := true },
               closedAttr := some true,
               closeAttempts := s.closeAttempts + 1 }
    if s.zip.closeFails then .err s1 else .ok s1
  | _ => .ok s

/-- Does executing row `r` write a regular file at path `q`?  (Only rows
whose destination does not end with the separator write files.) -/
def Row.writesTo (r : Row) (q : Path) : Prop :=
  endsWithSep r.dest = false ∧ splitPath r.dest = q

/-- Is `q` one of the directories ensured by some directory row of `rows`? -/
def dirsMadeBy (rows : List Row) (q : Path) : Prop :=
  ∃ r ∈ rows, endsWithSep r.dest = true ∧ q ∈ chainsOf (splitPath r.dest)

/-- The filesystem effect that row `r` contributes: a directory creation of
its (split) destination when the destination ends with the separator,
otherwise a full write of the zip entry's bytes with the parsed
(creation, modified) pair as (atime, mtime). -/
def effectFor (pd : String → String → Option Int) (fmt : String) (z : Zip)
    (r : Row) (e : Event) : Prop :=
  ∃ c m data, pd fmt r.cdate = some c ∧ pd fmt r.mdate = some m ∧
    zipRead z r.inp = .ok data ∧
    ((endsWithSep r.dest = true ∧ e = .mkdirE (splitPath r.dest)) ∨
     (endsWithSep r.dest = false ∧ e = .writeE (splitPath r.dest) data c m))

/-! ### Concrete instances used in scenarios -/

/-- A concrete date parser for the format of the spec's scenarios: it
recognises the two timestamps used there (with their local-time epoch
values) and rejects everything else, as `strptime` does. -/
def pdX : String → String → Option Int := fun fmt s =>
  if fmt = "%Y-%m-%dT%H:%M:%S" then
    if s = "2020-01-01T00:00:00" then some 1577836800
    else if s = "2020-06-01T00:00:00" then some 1590969600
    else none
  else none

/-- The bytes of the string `hello`. -/
def helloBytes : List Nat := [104, 101, 108, 108, 111]

/-- An open archive holding a single entry `a.txt` with bytes `hello`. -/
def zipA : Zip := { entries := [("a.txt", helloBytes)], closed := false,
                    closeFails := false }

/-- An open archive with no entries. -/
def zipEmpty : Zip := { entries := [], closed := false, closeFails := false }

/-- The default manifest header (default column names of `__init__`). -/
def stdHeader : List String := ["input", "output", "creation_date",
                                "modified_date"]

/-- The manifest of the file scenario: one row extracting `a.txt` to
`out/a.txt`. -/
def csvA : CSV :=
  { header := stdHeader,
    rows := [["a.txt", "out/a.txt", "2020-01-01T00:00:00",
              "2020-06-01T00:00:00"]] }

/-- A manifest whose header lacks the `modified_date` column. -/
def csvMissing : CSV :=
  { header := ["input", "output", "creation_date"],
    rows := [["a.txt", "out/a.txt", "2020-01-01T00:00:00"]] }

/-- A manifest whose header lacks both the `input` and the `modified_date`
columns. -/
def csvMissing2 : CSV :=
  { header := ["output", "creation_date"],
    rows := [["out/a.txt", "2020-01-01T00:00:00"]] }

/-- The manifest of the directory scenario: one row with output
`out/dir/`. -/
def csvDir : CSV :=
  { header := stdHeader,
    rows := [["a.txt", "out/dir/", "2020-01-01T00:00:00",
              "2020-06-01T00:00:00"]] }

/-- A manifest with a header but no data rows. -/
def csvEmpty : CSV := { header := stdHeader, rows := [] }

/-- A manifest whose row 0 has an unparseable `creation_date`. -/
def csvBadA : CSV :=
  { header := stdHeader,
    rows := [["a.txt", "out/dir/", "BAD", "2020-06-01T00:00:00"]] }

/-- A manifest whose row 1 has an unparseable `modified_date` (with the
same raw value as `csvBadA`'s bad cell). -/
def csvBadB : CSV :=
  { header := stdHeader,
    rows := [["a.txt", "out/dir/", "2020-01-01T00:00:00",
              "2020-06-01T00:00:00"],
             ["a.txt", "out/dir/", "2020-01-01T00:00:00", "BAD"]] }

/-- A session over archive `z` and manifest `csv` with the default column
names, as built by a successful `__init__`. -/
def sessionOf (z : Zip) (csv : CSV) : Session :=
  { zip := z, csv := csv, inpCol := "input", outCol := "output",
    cdateCol := "creation_date", mdateCol := "modified_date",
    closedAttr := some false, closeAttempts := 0 }

/-- The archive of `zipA` after its handle has been closed. -/
def zipAClosed : Zip := { entries := [("a.txt", helloBytes)], closed := true,
                          closeFails := false }

/-- An archive whose `close()` raises. -/
def zipFailClose : Zip := { entries := [], closed := false,
                            closeFails := true }

/-- The session state reached by calling `close` on `sessionOf zipA csv`. -/
def closedSession (csv : CSV) : Session :=
  { zip := zipAClosed, csv := csv, inpCol := "input", outCol := "output",
    cdateCol := "creation_date", mdateCol := "modified_date",
    closedAttr := some true, closeAttempts := 1 }

/-- An object whose construction failed before `self._closed = False` ran:
the `_closed` attribute was never set. -/
def sessionNoAttr : Session :=
  { zip := zipA, csv := csvEmpty, inpCol := "input", outCol := "output",
    cdateCol := "creation_date", mdateCol := "modified_date",
    closedAttr := none, closeAttempts := 0 }

/-- A two-row manifest: a directory row creating `out/`, then a file row
extracting `a.txt` to `out/a.txt`. -/
def csvTwo : CSV :=
  { header := stdHeader,
    rows := [["a.txt", "out/", "2020-01-01T00:00:00", "2020-06-01T00:00:00"],
             ["a.txt", "out/a.txt", "2020-01-01T00:00:00",
              "2020-06-01T00:00:00"]] }

/-- The first record of `csvTwo`: the directory row for `out/`. -/
def rowOut : Row := { inp := "a.txt", dest := "out/",
                      cdate := "2020-01-01T00:00:00",
                      mdate := "2020-06-01T00:00:00" }

/-- The manifest record of `csvA`'s single row. -/
def rowA : Row := { inp := "a.txt", dest := "out/a.txt",
                    cdate := "2020-01-01T00:00:00",
                    mdate := "2020-06-01T00:00:00" }

/-- The manifest record of `csvDir`'s single row. -/
def rowDir : Row := { inp := "a.txt", dest := "out/dir/",
                      cdate := "2020-01-01T00:00:00",
                      mdate := "2020-06-01T00:00:00" }

/-- The second record of `csvBadB`: its `modified_date` cell is `BAD`. -/
def rowBad : Row := { inp := "a.txt", dest := "out/dir/",
                      cdate := "2020-01-01T00:00:00", mdate := "BAD" }

/-- The empty filesystem. -/
def emptyFS : FS := { dirs := [], files := [] }

/-- A filesystem in which only the directory `out` exists. -/
def outFS : FS := { dirs := [["out"]], files := [] }

/-! ### Basic lemmas about the filesystem operations -/

lemma isDir_iff_mem (fs : FS) (p : Path) : fs.isDir p = true ↔ p ∈ fs.dirs := by
  simp [FS.isDir, List.contains_iff_exists_mem_beq]

lemma mkdirs_eq_some {fs fs1 : FS} {p : Path} (h : fs.mkdirs p = some fs1) :
    (∀ q ∈ chainsOf p, fs.getFile q = none) ∧
      fs1 = { fs with dirs := chainsOf p ++ fs.dirs } := by
  unfold FS.mkdirs at h
  split at h
  · next hc =>
    refine ⟨fun q hq => ?_, by cases h; rfl⟩
    have := List.all_eq_true.mp hc q hq
    simpa [Option.isNone_iff_eq_none] using this
  · cases h

lemma mkdirs_eq_some_of {fs : FS} {p : Path}
    (h : ∀ q ∈ chainsOf p, fs.getFile q = none) :
    fs.mkdirs p = some { fs with dirs := chainsOf p ++ fs.dirs } := by
  unfold FS.mkdirs
  rw [if_pos]
  exact List.all_eq_true.mpr (fun q hq => by simp [h q hq])

lemma write_eq_some {fs fs1 : FS} {p : Path} {fr : FileRec}
    (h : fs.write p fr = some fs1) :
    p ≠ [] ∧ (∀ q ∈ ancestorsOf p, fs.isDir q = true) ∧ fs.isDir p = false ∧
      fs1 = { fs with files := (p, fr) :: fs.files } := by
  unfold FS.write at h
  split at h
  · cases h
  · split at h
    · next hne hc =>
      have hc' := hc
      rw [Bool.and_eq_true] at hc'
      refine ⟨by simpa [List.isEmpty_iff] using hne,
              fun q hq => List.all_eq_true.mp hc'.1 q hq,
              by simpa using hc'.2, by cases h; rfl⟩
    · cases h

lemma write_eq_some_of {fs : FS} {p : Path} {fr : FileRec} (hne : p ≠ [])
    (ha : ∀ q ∈ ancestorsOf p, fs.isDir q = true) (hd : fs.isDir p = false) :
    fs.write p fr = some { fs with files := (p, fr) :: fs.files } := by
  unfold FS.write
  rw [if_neg (by simpa [List.isEmpty_iff] using hne), if_pos]
  rw [Bool.and_eq_true]
  exact ⟨List.all_eq_true.mpr ha, by simp [hd]⟩

lemma getFile_mkdirs {fs fs1 : FS} {p : Path} (h : fs.mkdirs p = some fs1)
    (q : Path) : fs1.getFile q = fs.getFile q := by
  rw [(mkdirs_eq_some h).2]
  rfl

lemma isDir_mkdirs {fs fs1 : FS} {p : Path} (h : fs.mkdirs p = some fs1)
    (q : Path) : q ∈ fs1.dirs ↔ q ∈ chainsOf p ∨ q ∈ fs.dirs := by
  rw [(mkdirs_eq_some h).2]
  simp

lemma getFile_write_self {fs fs1 : FS} {p : Path} {fr : FileRec}
    (h : fs.write p fr = some fs1) : fs1.getFile p = some fr := by
  rw [(write_eq_some h).2.2.2]
  simp [FS.getFile, List.find?]

lemma getFile_write_other {fs fs1 : FS} {p : Path} {fr : FileRec}
    (h : fs.write p fr = some fs1) (q : Path) (hq : q ≠ p) :
    fs1.getFile q = fs.getFile q := by
  rw [(write_eq_some h).2.2.2]
  simp only [FS.getFile, List.find?]
  have : ((p, fr).1 == q) = false := by
    simp only [beq_eq_false_iff_ne]
    exact fun hpq => hq (by simp [hpq])
  simp [this]

lemma dirs_write {fs fs1 : FS} {p : Path} {fr : FileRec}
    (h : fs.write p fr = some fs1) : fs1.dirs = fs.dirs := by
  rw [(write_eq_some h).2.2.2]

lemma wf_mkdirs {fs fs1 : FS} {p : Path} (hwf : fs.wf)
    (h : fs.mkdirs p = some fs1) : fs1.wf := by
  intro q hq
  rw [getFile_mkdirs h]
  rcases (isDir_mkdirs h q).mp hq with hc | hd
  · exact (mkdirs_eq_some h).1 q hc
  · exact hwf q hd

lemma wf_write {fs fs1 : FS} {p : Path} {fr : FileRec} (hwf : fs.wf)
    (h : fs.write p fr = some fs1) : fs1.wf := by
  intro q hq
  rw [dirs_write h] at hq
  have hqp : q ≠ p := by
    intro hqp
    subst hqp
    have hfalse := (write_eq_some h).2.2.1
    rw [← isDir_iff_mem] at hq
    rw [hfalse] at hq
    cases hq
  rw [getFile_write_other h q hqp]
  exact hwf q hq

/-! ### Lemmas about the per-row filesystem operation -/

lemma applyFS_dirs_mono {pl : RowPlan} {fs fs1 : FS}
    (h : pl.applyFS fs = some fs1) {q : Path} (hq : q ∈ fs.dirs) :
    q ∈ fs1.dirs := by
  unfold RowPlan.applyFS at h
  split at h
  · exact (isDir_mkdirs h q).mpr (Or.inr hq)
  · rw [dirs_write h]
    exact hq

lemma applyFS_isSome_mono {pl : RowPlan} {fs fs1 : FS}
    (h : pl.applyFS fs = some fs1) {q : Path}
    (hq : (fs.getFile q).isSome = true) : (fs1.getFile q).isSome = true := by
  unfold RowPlan.applyFS at h
  split at h
  · rw [getFile_mkdirs h]
    exact hq
  · by_cases hqe : q = pl.path
    · subst hqe
      rw [getFile_write_self h]
      rfl
    · rw [getFile_write_other h q hqe]
      exact hq

lemma applyFS_wf {pl : RowPlan} {fs fs1 : FS} (hwf : fs.wf)
    (h : pl.applyFS fs = some fs1) : fs1.wf := by
  unfold RowPlan.applyFS at h
  split at h
  · exact wf_mkdirs hwf h
  · exact wf_write hwf h

lemma applyFS_getFile_stable {pl : RowPlan} {fs fs1 : FS}
    (h : pl.applyFS fs = some fs1) {q : Path}
    (hq : pl.toDir = true ∨ q ≠ pl.path) : fs1.getFile q = fs.getFile q := by
  unfold RowPlan.applyFS at h
  split at h
  · exact getFile_mkdirs h q
  · next hnd =>
    rcases hq with hq | hq
    · rw [hq] at hnd
      cases hnd rfl
    · exact getFile_write_other h q hq

/-! ### Reduction and inversion lemmas for the extraction loop -/

lemma runRows_nil {pd : String → String → Option Int} {fmt : String}
    {z : Zip} {fs : FS} : runRows pd fmt z [] fs = .ok fs [] := rfl

lemma runRows_cons_plan_err {pd : String → String → Option Int} {fmt : String}
    {z : Zip} {r : Row} {rest : List Row} {fs : FS} {e : Err}
    {evs : List Event} (hp : planRow pd fmt z r = .error (e, evs)) :
    runRows pd fmt z (r :: rest) fs = .err e fs evs := by
  simp only [runRows, hp]

lemma runRows_cons_apply_none {pd : String → String → Option Int}
    {fmt : String} {z : Zip} {r : Row} {rest : List Row} {fs : FS}
    {pl : RowPlan} (hp : planRow pd fmt z r = .ok pl)
    (ha : pl.applyFS fs = none) :
    runRows pd fmt z (r :: rest) fs = .err pl.failErr fs (pl.preEvents r) := by
  simp only [runRows, hp, ha]

lemma runRows_cons_ok_ok {pd : String → String → Option Int} {fmt : String}
    {z : Zip} {r : Row} {rest : List Row} {fs fs1 t : FS} {pl : RowPlan}
    {tr : List Event} (hp : planRow pd fmt z r = .ok pl)
    (ha : pl.applyFS fs = some fs1)
    (hr : runRows pd fmt z rest fs1 = .ok t tr) :
    runRows pd fmt z (r :: rest) fs = .ok t (pl.events r ++ tr) := by
  simp only [runRows, hp, ha, hr]

lemma runRows_cons_ok_err {pd : String → String → Option Int} {fmt : String}
    {z : Zip} {r : Row} {rest : List Row} {fs fs1 t : FS} {pl : RowPlan}
    {e : Err} {tr : List Event} (hp : planRow pd fmt z r = .ok pl)
    (ha : pl.applyFS fs = some fs1)
    (hr : runRows pd fmt z rest fs1 = .err e t tr) :
    runRows pd fmt z (r :: rest) fs = .err e t (pl.events r ++ tr) := by
  simp only [runRows, hp, ha, hr]

lemma runRows_cons_ok_inv {pd : String → String → Option Int} {fmt : String}
    {z : Zip} {r : Row} {rest : List Row} {fs t : FS} {tr : List Event}
    (h : runRows pd fmt z (r :: rest) fs = .ok t tr) :
    ∃ pl fs1 tr1, planRow pd fmt z r = .ok pl ∧ pl.applyFS fs = some fs1 ∧
      runRows pd fmt z rest fs1 = .ok t tr1 ∧ tr = pl.events r ++ tr1 := by
  cases hp : planRow pd fmt z r with
  | error pe =>
    obtain ⟨e, evs⟩ := pe
    rw [runRows_cons_plan_err hp] at h
    cases h
  | ok pl =>
    cases ha : pl.applyFS fs with
    | none =>
      rw [runRows_cons_apply_none hp ha] at h
      cases h
    | some fs1 =>
      cases hr : runRows pd fmt z rest fs1 with
      | ok t' tr' =>
        rw [runRows_cons_ok_ok hp ha hr] at h
        injection h with h1 h2
        subst h1
        subst h2
        exact ⟨pl, fs1, tr', rfl, ha, hr, rfl⟩
      | err e t' tr' =>
        rw [runRows_cons_ok_err hp ha hr] at h
        cases h

lemma planRow_ok_inv {pd : String → String → Option Int} {fmt : String}
    {z : Zip} {r : Row} {pl : RowPlan} (h : planRow pd fmt z r = .ok pl) :
    pd fmt r.cdate = some pl.c ∧ pd fmt r.mdate = some pl.m ∧
      zipRead z r.inp = .ok pl.data ∧ pl.toDir = endsWithSep r.dest ∧
      pl.path = splitPath r.dest := by
  unfold planRow at h
  cases hc : pd fmt r.cdate with
  | none => rw [hc] at h; cases h
  | some c =>
    rw [hc] at h
    cases hm : pd fmt r.mdate with
    | none => rw [hm] at h; cases h
    | some m =>
      rw [hm] at h
      cases hz : zipRead z r.inp with
      | error e => rw [hz] at h; cases h
      | ok data =>
        rw [hz] at h
        injection h with h1
        subst h1
        exact ⟨rfl, rfl, rfl, rfl, rfl⟩

lemma planRow_ok_of {pd : String → String → Option Int} {fmt : String}
    {z : Zip} {r : Row} {c m : Int} {data : List Nat}
    (hc : pd fmt r.cdate = some c) (hm : pd fmt r.mdate = some m)
    (hz : zipRead z r.inp = .ok data) :
    planRow pd fmt z r =
      .ok ⟨c, m, data, endsWithSep r.dest, splitPath r.dest⟩ := by
  simp only [planRow, hc, hm, hz]

/-! ### Composition and monotonicity of the extraction loop -/

lemma runRows_append_ok {pd : String → String → Option Int} {fmt : String}
    {z : Zip} {xs ys : List Row} {fs t1 t2 : FS} {tr1 tr2 : List Event}
    (h1 : runRows pd fmt z xs fs = .ok t1 tr1)
    (h2 : runRows pd fmt z ys t1 = .ok t2 tr2) :
    runRows pd fmt z (xs ++ ys) fs = .ok t2 (tr1 ++ tr2) := by
  induction xs generalizing fs tr1 with
  | nil =>
    rw [runRows_nil] at h1
    injection h1 with e1 e2
    subst e1
    subst e2
    simpa using h2
  | cons r rest ih =>
    obtain ⟨pl, fs1, tr1a, hp, ha, hr, htr⟩ := runRows_cons_ok_inv h1
    subst htr
    have := runRows_cons_ok_ok hp ha (ih hr)
    simpa [List.append_assoc] using this

lemma runRows_append_err {pd : String → String → Option Int} {fmt : String}
    {z : Zip} {xs ys : List Row} {fs t1 t2 : FS} {e : Err}
    {tr1 tr2 : List Event} (h1 : runRows pd fmt z xs fs = .ok t1 tr1)
    (h2 : runRows pd fmt z ys t1 = .err e t2 tr2) :
    runRows pd fmt z (xs ++ ys) fs = .err e t2 (tr1 ++ tr2) := by
  induction xs generalizing fs tr1 with
  | nil =>
    rw [runRows_nil] at h1
    injection h1 with e1 e2
    subst e1
    subst e2
    simpa using h2
  | cons r rest ih =>
    obtain ⟨pl, fs1, tr1a, hp, ha, hr, htr⟩ := runRows_cons_ok_inv h1
    subst htr
    have := runRows_cons_ok_err hp ha (ih hr)
    simpa [List.append_assoc] using this

lemma runRows_append_ok_inv {pd : String → String → Option Int} {fmt : String}
    {z : Zip} {xs ys : List Row} {fs t : FS} {tr : List Event}
    (h : runRows pd fmt z (xs ++ ys) fs = .ok t tr) :
    ∃ t1 tr1 tr2, runRows pd fmt z xs fs = .ok t1 tr1 ∧
      runRows pd fmt z ys t1 = .ok t tr2 ∧ tr = tr1 ++ tr2 := by
  induction xs generalizing fs tr with
  | nil => exact ⟨fs, [], tr, runRows_nil, by simpa using h, rfl⟩
  | cons r rest ih =>
    rw [List.cons_append] at h
    obtain ⟨pl, fs1, tr1, hp, ha, hr, htr⟩ := runRows_cons_ok_inv h
    obtain ⟨t1, tr1a, tr2, hx, hy, htr2⟩ := ih hr
    refine ⟨t1, pl.events r ++ tr1a, tr2, runRows_cons_ok_ok hp ha hx, hy, ?_⟩
    rw [htr, htr2, List.append_assoc]

lemma runRows_ok_dirs_mono {pd : String → String → Option Int} {fmt : String}
    {z : Zip} {rows : List Row} {fs t : FS} {tr : List Event}
    (h : runRows pd fmt z rows fs = .ok t tr) {q : Path} (hq : q ∈ fs.dirs) :
    q ∈ t.dirs := by
  induction rows generalizing fs tr with
  | nil =>
    rw [runRows_nil] at h
    injection h with e1 _
    subst e1
    exact hq
  | cons r rest ih =>
    obtain ⟨pl, fs1, tr1, hp, ha, hr, _⟩ := runRows_cons_ok_inv h
    exact ih hr (applyFS_dirs_mono ha hq)

lemma runRows_ok_isSome_mono {pd : String → String → Option Int}
    {fmt : String} {z : Zip} {rows : List Row} {fs t : FS} {tr : List Event}
    (h : runRows pd fmt z rows fs = .ok t tr) {q : Path}
    (hq : (fs.getFile q).isSome = true) : (t.getFile q).isSome = true := by
  induction rows generalizing fs tr with
  | nil =>
    rw [runRows_nil] at h
    injection h with e1 _
    subst e1
    exact hq
  | cons r rest ih =>
    obtain ⟨pl, fs1, tr1, hp, ha, hr, _⟩ := runRows_cons_ok_inv h
    exact ih hr (applyFS_isSome_mono ha hq)

lemma runRows_ok_wf {pd : String → String → Option Int} {fmt : String}
    {z : Zip} {rows : List Row} {fs t : FS} {tr : List Event} (hwf : fs.wf)
    (h : runRows pd fmt z rows fs = .ok t tr) : t.wf := by
  induction rows generalizing fs tr with
  | nil =>
    rw [runRows_nil] at h
    injection h with e1 _
    subst e1
    exact hwf
  | cons r rest ih =>
    obtain ⟨pl, fs1, tr1, hp, ha, hr, _⟩ := runRows_cons_ok_inv h
    exact ih (applyFS_wf hwf ha) hr

lemma runRows_ok_stable {pd : String → String → Option Int} {fmt : String}
    {z : Zip} {rows : List Row} {fs t : FS} {tr : List Event}
    (h : runRows pd fmt z rows fs = .ok t tr) {q : Path}
    (hq : ∀ r ∈ rows, ¬ r.writesTo q) : t.getFile q = fs.getFile q := by
  induction rows generalizing fs tr with
  | nil =>
    rw [runRows_nil] at h
    injection h with e1 _
    subst e1
    rfl
  | cons r rest ih =>
    obtain ⟨pl, fs1, tr1, hp, ha, hr, _⟩ := runRows_cons_ok_inv h
    obtain ⟨_, _, _, hdir, hpath⟩ := planRow_ok_inv hp
    have hstep : fs1.getFile q = fs.getFile q := by
      apply applyFS_getFile_stable ha
      by_cases hd : pl.toDir = true
      · exact Or.inl hd
      · refine Or.inr (fun hqp => hq r (by simp) ?_)
        refine ⟨by rw [← hdir]; simpa using hd, ?_⟩
        rw [← hpath, hqp]
    rw [ih hr (fun r' hr' => hq r' (by simp [hr']))]
    exact hstep

lemma runRows_ok_dir_keeps_none {pd : String → String → Option Int}
    {fmt : String} {z : Zip} {rows : List Row} {fs t : FS} {tr : List Event}
    (h : runRows pd fmt z rows fs = .ok t tr) {q : Path} (hd : q ∈ fs.dirs)
    (hn : fs.getFile q = none) : t.getFile q = none := by
  induction rows generalizing fs tr with
  | nil =>
    rw [runRows_nil] at h
    injection h with e1 _
    subst e1
    exact hn
  | cons r rest ih =>
    obtain ⟨pl, fs1, tr1, hp, ha, hr, _⟩ := runRows_cons_ok_inv h
    have hd1 : q ∈ fs1.dirs := applyFS_dirs_mono ha hd
    have hn1 : fs1.getFile q = none := by
      unfold RowPlan.applyFS at ha
      split at ha
      · rw [getFile_mkdirs ha]
        exact hn
      · have hqp : q ≠ pl.path := by
          intro hqp
          subst hqp
          have := (write_eq_some ha).2.2.1
          rw [← isDir_iff_mem] at hd
          rw [this] at hd
          cases hd
        rw [getFile_write_other ha q hqp]
        exact hn
    exact ih hr hd1 hn1

lemma runRows_ok_dirs_char {pd : String → String → Option Int} {fmt : String}
    {z : Zip} {rows : List Row} {fs t : FS} {tr : List Event}
    (h : runRows pd fmt z rows fs = .ok t tr) (q : Path) :
    q ∈ t.dirs ↔ q ∈ fs.dirs ∨ dirsMadeBy rows q := by
  induction rows generalizing fs tr with
  | nil =>
    rw [runRows_nil] at h
    injection h with e1 _
    subst e1
    simp [dirsMadeBy]
  | cons r rest ih =>
    obtain ⟨pl, fs1, tr1, hp, ha, hr, _⟩ := runRows_cons_ok_inv h
    obtain ⟨_, _, _, hdir, hpath⟩ := planRow_ok_inv hp
    rw [ih hr]
    have hstep : q ∈ fs1.dirs ↔
        (endsWithSep r.dest = true ∧ q ∈ chainsOf (splitPath r.dest)) ∨
          q ∈ fs.dirs := by
      unfold RowPlan.applyFS at ha
      split at ha
      · next htd =>
        rw [isDir_mkdirs ha q, ← hpath]
        constructor
        · rintro (hc | hc)
          · exact Or.inl ⟨by rw [← hdir, htd], hc⟩
          · exact Or.inr hc
        · rintro (⟨_, hc⟩ | hc)
          · exact Or.inl hc
          · exact Or.inr hc
      · next htd =>
        rw [dirs_write ha]
        constructor
        · exact fun hc => Or.inr hc
        · rintro (⟨hc, _⟩ | hc)
          · rw [← hdir] at hc
            cases htd hc
          · exact hc
    rw [hstep]
    unfold dirsMadeBy
    simp only [List.mem_cons]
    constructor
    · rintro ((⟨h1, h2⟩ | hfs) | ⟨r', hr', h1, h2⟩)
      · exact Or.inr ⟨r, Or.inl rfl, h1, h2⟩
      · exact Or.inl hfs
      · exact Or.inr ⟨r', Or.inr hr', h1, h2⟩
    · rintro (hfs | ⟨r', hr'' | hr'', h1, h2⟩)
      · exact Or.inl (Or.inr hfs)
      · subst hr''
        exact Or.inl (Or.inl ⟨h1, h2⟩)
      · exact Or.inr ⟨r', hr'', h1, h2⟩

/-! ### Idempotence of the extraction loop -/

lemma runRows_idem_aux {pd : String → String → Option Int} {fmt : String}
    {z : Zip} {rows : List Row} {s s' t : FS} {tr : List Event}
    (hwf : s.wf) (hrun : runRows pd fmt z rows s = .ok t tr)
    (h3 : ∀ q, q ∈ s.dirs → q ∈ s'.dirs)
    (h4 : ∀ q, q ∈ s'.dirs ↔ q ∈ t.dirs)
    (h5 : ∀ q : Path,
      ((s'.getFile q).isSome = true ↔ (t.getFile q).isSome = true))
    (h6 : ∀ q : Path, s'.getFile q = t.getFile q ∨ ∃ r ∈ rows, r.writesTo q) :
    ∃ t', runRows pd fmt z rows s' = .ok t' tr ∧
      (∀ q, q ∈ t'.dirs ↔ q ∈ t.dirs) ∧
      (∀ q : Path, t'.getFile q = t.getFile q) := by
  induction rows generalizing s s' tr with
  | nil =>
    rw [runRows_nil] at hrun
    injection hrun with e1 e2
    subst e1
    subst e2
    refine ⟨s', runRows_nil, h4, fun q => ?_⟩
    rcases h6 q with h | h
    · exact h
    · simp at h
  | cons r rest ih =>
    obtain ⟨pl, fs1, tr1, hp, ha, hr, htr⟩ := runRows_cons_ok_inv hrun
    subst htr
    obtain ⟨hc, hm, hz, hdir, hpath⟩ := planRow_ok_inv hp
    have hwf1 : fs1.wf := applyFS_wf hwf ha
    have hwft : t.wf := runRows_ok_wf hwf1 hr
    cases htd : pl.toDir with
    | true =>
      have ha' : s.mkdirs pl.path = some fs1 := by
        unfold RowPlan.applyFS at ha
        rwa [if_pos htd] at ha
      have hpre : ∀ q ∈ chainsOf pl.path, s'.getFile q = none := by
        intro q hq
        have hq1 : q ∈ fs1.dirs := (isDir_mkdirs ha' q).mpr (Or.inl hq)
        have hqt : q ∈ t.dirs := runRows_ok_dirs_mono hr hq1
        have hnt : t.getFile q = none := hwft q hqt
        cases hx : s'.getFile q with
        | none => rfl
        | some v =>
          have hsome : (t.getFile q).isSome = true :=
            (h5 q).mp (by rw [hx]; rfl)
          rw [hnt] at hsome
          cases hsome
      have hs' : s'.mkdirs pl.path =
          some { s' with dirs := chainsOf pl.path ++ s'.dirs } :=
        mkdirs_eq_some_of hpre
      have has' : pl.applyFS s' =
          some { s' with dirs := chainsOf pl.path ++ s'.dirs } := by
        unfold RowPlan.applyFS
        rwa [if_pos htd]
      have hrec := @ih fs1 { s' with dirs := chainsOf pl.path ++ s'.dirs }
        tr1 hwf1 hr
        (fun q hq => by
          rcases (isDir_mkdirs ha' q).mp hq with hq' | hq'
          · exact List.mem_append_left _ hq'
          · exact List.mem_append_right _ (h3 q hq'))
        (fun q => by
          simp only [List.mem_append]
          constructor
          · rintro (hq' | hq')
            · exact runRows_ok_dirs_mono hr ((isDir_mkdirs ha' q).mpr (Or.inl hq'))
            · exact (h4 q).mp hq'
          · intro hq'
            exact Or.inr ((h4 q).mpr hq'))
        (fun q => by
          have hfe : FS.getFile { s' with dirs := chainsOf pl.path ++ s'.dirs } q
              = s'.getFile q := rfl
          rw [hfe]
          exact h5 q)
        (fun q => by
          have hfe : FS.getFile { s' with dirs := chainsOf pl.path ++ s'.dirs } q
              = s'.getFile q := rfl
          rw [hfe]
          rcases h6 q with h | ⟨r', hmem, hwr⟩
          · exact Or.inl h
          · rcases List.mem_cons.mp hmem with he | he
            · subst he
              rw [Row.writesTo, ← hdir, htd] at hwr
              cases hwr.1
            · exact Or.inr ⟨r', he, hwr⟩)
      obtain ⟨t', hrun', hdt, hft⟩ := hrec
      exact ⟨t', runRows_cons_ok_ok hp has' hrun', hdt, hft⟩
    | false =>
      have ha' : s.write pl.path ⟨pl.data, pl.c, pl.m⟩ = some fs1 := by
        unfold RowPlan.applyFS at ha
        rwa [if_neg (by simp [htd])] at ha
      obtain ⟨hne, hanc, hnd, hfs1⟩ := write_eq_some ha'
      have hsomet : (t.getFile pl.path).isSome = true := by
        apply runRows_ok_isSome_mono hr
        rw [getFile_write_self ha']
        rfl
      have hnmem : pl.path ∉ s'.dirs := by
        intro hmem
        have := hwft pl.path ((h4 pl.path).mp hmem)
        rw [this] at hsomet
        cases hsomet
      have hnd' : s'.isDir pl.path = false := by
        cases hbb : s'.isDir pl.path with
        | false => rfl
        | true => exact absurd ((isDir_iff_mem s' pl.path).mp hbb) hnmem
      have hw' : s'.write pl.path ⟨pl.data, pl.c, pl.m⟩ =
          some { s' with files := (pl.path, ⟨pl.data, pl.c, pl.m⟩) :: s'.files } :=
        write_eq_some_of hne
          (fun q hq => by
            rw [isDir_iff_mem]
            exact h3 q ((isDir_iff_mem s q).mp (hanc q hq)))
          hnd'
      have has' : pl.applyFS s' =
          some { s' with files := (pl.path, ⟨pl.data, pl.c, pl.m⟩) :: s'.files } := by
        unfold RowPlan.applyFS
        rwa [if_neg (by simp [htd])]
      have hrec := @ih fs1
        { s' with files := (pl.path, ⟨pl.data, pl.c, pl.m⟩) :: s'.files }
        tr1 hwf1 hr
        (fun q hq => by
          rw [hfs1] at hq
          exact h3 q hq)
        (fun q => h4 q)
        (fun q => by
          by_cases hqe : q = pl.path
          · subst hqe
            rw [getFile_write_self hw']
            simp only [Option.isSome_some, true_iff]
            exact hsomet
          · rw [getFile_write_other hw' q hqe]
            exact h5 q)
        (fun q => by
          by_cases hqe : q = pl.path
          · subst hqe
            by_cases hwq : ∃ r' ∈ rest, r'.writesTo pl.path
            · exact Or.inr hwq
            · refine Or.inl ?_
              rw [getFile_write_self hw']
              rw [runRows_ok_stable hr (fun r' hr' hwr => hwq ⟨r', hr', hwr⟩)]
              rw [getFile_write_self ha']
          · rw [getFile_write_other hw' q hqe]
            rcases h6 q with h | ⟨r', hmem, hwr⟩
            · exact Or.inl h
            · rcases List.mem_cons.mp hmem with he | he
              · subst he
                rw [Row.writesTo] at hwr
                rw [← hpath] at hwr
                exact absurd hwr.2.symm hqe
              · exact Or.inr ⟨r', he, hwr⟩)
      obtain ⟨t', hrun', hdt, hft⟩ := hrec
      exact ⟨t', runRows_cons_ok_ok hp has' hrun', hdt, hft⟩

/-! ### Per-row effects, column selection, and top-level reductions -/

lemma fsEffects_events {pl : RowPlan} (r : Row) :
    fsEffects (pl.events r) =
      [if pl.toDir then .mkdirE pl.path
       else .writeE pl.path pl.data pl.c pl.m] := by
  cases htd : pl.toDir <;>
    simp [fsEffects, RowPlan.events, Event.isFsEffect, htd]

lemma runRows_ok_effects {pd : String → String → Option Int} {fmt : String}
    {z : Zip} {rows : List Row} {fs t : FS} {tr : List Event}
    (h : runRows pd fmt z rows fs = .ok t tr) :
    List.Forall₂ (effectFor pd fmt z) rows (fsEffects tr) := by
  induction rows generalizing fs tr with
  | nil =>
    rw [runRows_nil] at h
    injection h with _ e2
    subst e2
    exact List.Forall₂.nil
  | cons r rest ih =>
    obtain ⟨pl, fs1, tr1, hp, ha, hr, htr⟩ := runRows_cons_ok_inv h
    subst htr
    obtain ⟨hc, hm, hz, hdir, hpath⟩ := planRow_ok_inv hp
    have hsplit : fsEffects (pl.events r ++ tr1) =
        (if pl.toDir then Event.mkdirE pl.path
         else Event.writeE pl.path pl.data pl.c pl.m) :: fsEffects tr1 := by
      unfold fsEffects
      rw [List.filter_append]
      show fsEffects (pl.events r) ++ fsEffects tr1 = _
      rw [fsEffects_events]
      rfl
    rw [hsplit]
    refine List.Forall₂.cons ?_ (ih hr)
    refine ⟨pl.c, pl.m, pl.data, hc, hm, hz, ?_⟩
    rw [hdir, hpath]
    cases he : endsWithSep r.dest with
    | true => exact Or.inl ⟨rfl, by simp⟩
    | false => exact Or.inr ⟨rfl, by simp⟩

lemma selectCols_missing {csv : CSV} {c1 c2 c3 c4 : String}
    (h : missingCols csv c1 c2 c3 c4 ≠ []) :
    selectCols csv c1 c2 c3 c4 =
      .error (.colKeyErr (missingCols csv c1 c2 c3 c4)) := by
  unfold selectCols
  cases hm : missingCols csv c1 c2 c3 c4 with
  | nil => exact absurd hm h
  | cons a l => rfl

lemma selectCols_ok_inv {csv : CSV} {c1 c2 c3 c4 : String} {rows : List Row}
    (h : selectCols csv c1 c2 c3 c4 = .ok rows) :
    rows = csv.rows.map (fun r =>
      ⟨cellAt r (csv.header.indexOf c1), cellAt r (csv.header.indexOf c2),
       cellAt r (csv.header.indexOf c3),
       cellAt r (csv.header.indexOf c4)⟩) := by
  unfold selectCols at h
  cases hm : missingCols csv c1 c2 c3 c4 with
  | nil =>
    rw [hm] at h
    injection h with h1
    exact h1.symm
  | cons a l =>
    rw [hm] at h
    cases h

lemma extract_eq_runRows {pd : String → String → Option Int} {s : Session}
    {fmt : String} {fs : FS} {rows : List Row}
    (hsel : selectCols s.csv s.inpCol s.outCol s.cdateCol s.mdateCol =
      .ok rows) :
    extract pd s fmt fs = runRows pd fmt s.zip rows fs := by
  unfold extract
  rw [hsel]

lemma extract_col_err {pd : String → String → Option Int} {s : Session}
    {fmt : String} {fs : FS} {e : Err}
    (hsel : selectCols s.csv s.inpCol s.outCol s.cdateCol s.mdateCol =
      .error e) : extract pd s fmt fs = .err e fs [] := by
  unfold extract
  rw [hsel]

lemma self_mem_chainsOf {p : Path} (h : p ≠ []) : p ∈ chainsOf p := by
  unfold chainsOf
  refine List.mem_map.mpr ⟨p.length - 1, ?_, ?_⟩
  · exact List.mem_range.mpr (Nat.sub_lt (List.length_pos.mpr h) one_pos)
  · rw [Nat.sub_add_cancel (Nat.one_le_iff_ne_zero.mpr
      (fun h0 => h (List.length_eq_zero.mp h0)))]
    exact List.take_length p

/-! ### Claim theorems -/

/-- C1 counterexample: with a manifest lacking the `modified_date` column,
construction succeeds — no error of any kind is raised at load time; the
failure (a `KeyError` from column selection, not a `ManifestError`) occurs
only once `extract` is called. -/
theorem C1_counterexample :
    initSession (some zipA) (some csvMissing) ("input") ("output")
        ("creation_date") ("modified_date") =
      .ok (sessionOf zipA csvMissing) ∧
    extract pdX (sessionOf zipA csvMissing) ("%Y-%m-%dT%H:%M:%S") emptyFS =
      .err (.colKeyErr [("modified_date")]) emptyFS [] :=
  ⟨rfl, rfl⟩

/-- C1 (amended): a manifest missing any (one or more) of the four required
columns does not fail construction with a `ManifestError` at load time: the
session is built, and when `extract` is called, column selection raises a
`KeyError` naming all the missing columns, before any row is processed and
with no filesystem effect. -/
theorem C1_missing_column {z : Zip} {csv : CSV} {c1 c2 c3 c4 : String}
    (pd : String → String → Option Int) (fmt : String) (fs : FS)
    (hmiss : missingCols csv c1 c2 c3 c4 ≠ []) :
    initSession (some z) (some csv) c1 c2 c3 c4 =
      .ok { zip := z, csv := csv, inpCol := c1, outCol := c2, cdateCol := c3,
            mdateCol := c4, closedAttr := some false, closeAttempts := 0 } ∧
    extract pd
      { zip := z, csv := csv, inpCol := c1, outCol := c2, cdateCol := c3,
        mdateCol := c4, closedAttr := some false, closeAttempts := 0 }
      fmt fs =
      .err (.colKeyErr (missingCols csv c1 c2 c3 c4)) fs [] :=
  ⟨rfl, extract_col_err (selectCols_missing hmiss)⟩

/-- C1 witness: the amended claim at two concrete manifests: one missing
only the `modified_date` column, one missing both the `input` and the
`modified_date` columns (the single `KeyError` names both). -/
theorem C1_missing_column_witness :
    (initSession (some zipA) (some csvMissing) ("input") ("output")
        ("creation_date") ("modified_date") =
      .ok { zip := zipA, csv := csvMissing, inpCol := "input",
            outCol := "output", cdateCol := "creation_date",
            mdateCol := "modified_date", closedAttr := some false,
            closeAttempts := 0 } ∧
    extract pdX
      { zip := zipA, csv := csvMissing, inpCol := "input", outCol := "output",
        cdateCol := "creation_date", mdateCol := "modified_date",
        closedAttr := some false, closeAttempts := 0 }
      ("%Y-%m-%dT%H:%M:%S") emptyFS =
      .err (.colKeyErr [("modified_date")]) emptyFS []) ∧
    (initSession (some zipA) (some csvMissing2) ("input") ("output")
        ("creation_date") ("modified_date") =
      .ok { zip := zipA, csv := csvMissing2, inpCol := "input",
            outCol := "output", cdateCol := "creation_date",
            mdateCol := "modified_date", closedAttr := some false,
            closeAttempts := 0 } ∧
    extract pdX
      { zip := zipA, csv := csvMissing2, inpCol := "input",
        outCol := "output", cdateCol := "creation_date",
        mdateCol := "modified_date", closedAttr := some false,
        closeAttempts := 0 }
      ("%Y-%m-%dT%H:%M:%S") emptyFS =
      .err (.colKeyErr [("input"), ("modified_date")]) emptyFS []) :=
  ⟨C1_missing_column pdX ("%Y-%m-%dT%H:%M:%S") emptyFS (by decide),
   C1_missing_column pdX ("%Y-%m-%dT%H:%M:%S") emptyFS (by decide)⟩

/-- C4 counterexample: there is no `SessionClosedError` check in `extract`:
on the session reached by a successful `close`, `extract` with an empty
manifest completes without raising. -/
theorem C4_counterexample :
    close (sessionOf zipA csvEmpty) = .ok (closedSession csvEmpty) ∧
    extract pdX (closedSession csvEmpty) ("%Y-%m-%dT%H:%M:%S") emptyFS =
      .ok emptyFS [] :=
  ⟨rfl, rfl⟩

/-- C4 (amended): `extract` on a closed session fails only when it reaches
an archive read: with at least one manifest row whose dates parse, the run
fails with the `ValueError` of reading a closed `ZipFile` (not with a
`SessionClosedError`, which does not exist), after the row's `print` and
before any filesystem effect; with an empty manifest it succeeds doing
nothing. -/
theorem C4_closed_session {pd : String → String → Option Int} {fmt : String}
    {s : Session} {fs : FS} {r : Row} {rest : List Row} {c m : Int}
    (hclosed : s.zip.closed = true)
    (hsel : selectCols s.csv s.inpCol s.outCol s.cdateCol s.mdateCol =
      .ok (r :: rest))
    (hc : pd fmt r.cdate = some c) (hm : pd fmt r.mdate = some m) :
    extract pd s fmt fs = .err .zipClosedErr fs [.printE r.inp r.dest c m] := by
  rw [extract_eq_runRows hsel]
  have hz : zipRead s.zip r.inp = .error .zipClosedErr := by
    unfold zipRead
    rw [if_pos hclosed]
  exact runRows_cons_plan_err (by simp only [planRow, hc, hm, hz])

/-- C4 witness: the amended claim on the closed session over the one-row
manifest. -/
theorem C4_closed_session_witness :
    extract pdX (closedSession csvA) ("%Y-%m-%dT%H:%M:%S") outFS =
      .err .zipClosedErr outFS
        [.printE ("a.txt") ("out/a.txt") 1577836800 1590969600] :=
  @C4_closed_session pdX ("%Y-%m-%dT%H:%M:%S") (closedSession csvA) outFS
    rowA [] 1577836800 1590969600 rfl rfl rfl rfl

/-- C9: `close` never raises when called again after a successful close,
nor when called on an object whose construction failed before the
`_closed` attribute was set (the `getattr` default makes it a no-op). -/
theorem C9_close_noraise :
    (∀ s s' : Session, close s = .ok s' → close s' = .ok s') ∧
    (∀ s : Session, s.closedAttr = none → close s = .ok s) := by
  constructor
  · intro s s' h
    unfold close at h ⊢
    cases hca : s.closedAttr with
    | none =>
      rw [hca] at h
      injection h with h1
      subst h1
      rw [hca]
    | some b =>
      cases b with
      | true =>
        rw [hca] at h
        injection h with h1
        subst h1
        rw [hca]
      | false =>
        rw [hca] at h
        cases hcf : s.zip.closeFails with
        | true =>
          rw [if_pos hcf] at h
          cases h
        | false =>
          rw [if_neg (by simp [hcf])] at h
          injection h with h1
          subst h1
          rfl
  · intro s h
    unfold close
    rw [h]

/-- C9 witness: the two parts of the claim at concrete sessions: a second
close after a successful one, and a close on a partially constructed
object. -/
theorem C9_close_noraise_witness :
    close (closedSession csvEmpty) = .ok (closedSession csvEmpty) ∧
    close sessionNoAttr = .ok sessionNoAttr :=
  ⟨C9_close_noraise.1 (sessionOf zipA csvEmpty) (closedSession csvEmpty) rfl,
   C9_close_noraise.2 sessionNoAttr rfl⟩

/-- C10: invoking `close` on an open session sets the `_closed` flag even
when releasing the archive handle raises (the flag is set in a `finally`
block); every subsequent `close` is a no-op that succeeds and never
re-attempts the release (the attempt counter does not grow). -/
theorem C10_close_sets_flag (s : Session) (h : s.closedAttr = some false) :
    ((close s).state).closedAttr = some true ∧
    close ((close s).state) = .ok ((close s).state) ∧
    ((close s).state).closeAttempts = s.closeAttempts + 1 := by
  unfold close
  rw [h]
  cases hcf : s.zip.closeFails <;> exact ⟨rfl, rfl, rfl⟩

/-- C10 witness: the claim on an open session whose archive close raises. -/
theorem C10_close_sets_flag_witness :
    ((close (sessionOf zipFailClose csvEmpty)).state).closedAttr =
        some true ∧
    close ((close (sessionOf zipFailClose csvEmpty)).state) =
      .ok ((close (sessionOf zipFailClose csvEmpty)).state) ∧
    ((close (sessionOf zipFailClose csvEmpty)).state).closeAttempts =
      (sessionOf zipFailClose csvEmpty).closeAttempts + 1 :=
  C10_close_sets_flag (sessionOf zipFailClose csvEmpty) rfl

/-- C3 counterexample: a directory record does trigger an archive read of
its entry's bytes: with the entry absent from the archive, `extract` fails
with the `KeyError` of `ZipFile.read` and creates no directory (had no read
been performed for directory records, `out/dir/` would have been
created). -/
theorem C3_counterexample :
    extract pdX (sessionOf zipEmpty csvDir) ("%Y-%m-%dT%H:%M:%S") emptyFS =
      .err (.entryKeyErr ("a.txt")) emptyFS
        [.printE ("a.txt") ("out/dir/") 1577836800 1590969600] :=
  rfl

/-- C3 (amended): for every manifest record whose destination ends with the
separator, a successful `extract` ensures the directory exists (idempotent
via `exist_ok=True`), never leaves a regular file at that path, applies no
timestamp to it (its only filesystem event is the directory creation), but
it DOES read the entry's bytes from the archive: the trace contains the
read event for that record. -/
theorem C3_dir_rows {pd : String → String → Option Int} {fmt : String}
    {s : Session} {fs t : FS} {tr : List Event} {rows : List Row} {r : Row}
    (hsel : selectCols s.csv s.inpCol s.outCol s.cdateCol s.mdateCol =
      .ok rows)
    (hmem : r ∈ rows) (hds : endsWithSep r.dest = true)
    (hne : splitPath r.dest ≠ [])
    (hok : extract pd s fmt fs = .ok t tr) :
    splitPath r.dest ∈ t.dirs ∧ t.getFile (splitPath r.dest) = none ∧
      Event.readE r.inp ∈ tr ∧ Event.mkdirE (splitPath r.dest) ∈ tr := by
  rw [extract_eq_runRows hsel] at hok
  obtain ⟨l1, l2, hsplit⟩ := List.append_of_mem hmem
  subst hsplit
  obtain ⟨t1, tr1, tr2, hx, hy, htr⟩ := runRows_append_ok_inv hok
  obtain ⟨pl, fs1, tr2a, hp, ha, hrest, htr2⟩ := runRows_cons_ok_inv hy
  obtain ⟨hc, hm, hz, hdir, hpath⟩ := planRow_ok_inv hp
  have htd : pl.toDir = true := by rw [hdir, hds]
  have ha' : t1.mkdirs pl.path = some fs1 := by
    unfold RowPlan.applyFS at ha
    rwa [if_pos htd] at ha
  have hchain : pl.path ∈ chainsOf pl.path :=
    self_mem_chainsOf (by rwa [hpath])
  have hd1 : pl.path ∈ fs1.dirs := (isDir_mkdirs ha' pl.path).mpr
    (Or.inl hchain)
  have hn1 : fs1.getFile pl.path = none := by
    rw [getFile_mkdirs ha']
    exact (mkdirs_eq_some ha').1 pl.path hchain
  refine ⟨?_, ?_, ?_, ?_⟩
  · rw [← hpath]
    exact runRows_ok_dirs_mono hrest hd1
  · rw [← hpath]
    exact runRows_ok_dir_keeps_none hrest hd1 hn1
  · rw [htr, htr2]
    refine List.mem_append_right _ (List.mem_append_left _ ?_)
    simp [RowPlan.events]
  · rw [htr, htr2]
    refine List.mem_append_right _ (List.mem_append_left _ ?_)
    rw [← hpath]
    simp [RowPlan.events, htd]

/-- C3 witness: the amended claim on the concrete directory scenario. -/
theorem C3_dir_rows_witness :
    splitPath ("out/dir/") ∈
        (FS.mk [["out"], ["out", "dir"]] []).dirs ∧
      (FS.mk [["out"], ["out", "dir"]] []).getFile
        (splitPath ("out/dir/")) = none ∧
      Event.readE ("a.txt") ∈
        [Event.printE ("a.txt") ("out/dir/") 1577836800 1590969600,
         Event.readE ("a.txt"), Event.mkdirE [("out"), ("dir")]] ∧
      Event.mkdirE (splitPath ("out/dir/")) ∈
        [Event.printE ("a.txt") ("out/dir/") 1577836800 1590969600,
         Event.readE ("a.txt"), Event.mkdirE [("out"), ("dir")]] :=
  @C3_dir_rows pdX ("%Y-%m-%dT%H:%M:%S") (sessionOf zipA csvDir) emptyFS
    (FS.mk [["out"], ["out", "dir"]] [])
    [Event.printE ("a.txt") ("out/dir/") 1577836800 1590969600,
     Event.readE ("a.txt"), Event.mkdirE [("out"), ("dir")]]
    [rowDir] rowDir rfl (by decide) rfl (by decide) rfl

/-- C5 counterexample: the date-parse error carries neither the row index
nor the field: a run failing at row 0 on `creation_date` and a run failing
at row 1 on `modified_date` (same raw value) raise the identical error
value `ValueError(raw, format)`.  The second run also shows prior rows'
effects remain (the directory `out/dir` stays). -/
theorem C5_counterexample :
    extract pdX (sessionOf zipA csvBadA) ("%Y-%m-%dT%H:%M:%S") emptyFS =
      .err (.dateErr ("BAD") ("%Y-%m-%dT%H:%M:%S")) emptyFS [] ∧
    extract pdX (sessionOf zipA csvBadB) ("%Y-%m-%dT%H:%M:%S") emptyFS =
      .err (.dateErr ("BAD") ("%Y-%m-%dT%H:%M:%S"))
        (FS.mk [["out"], ["out", "dir"]] [])
        [.printE ("a.txt") ("out/dir/") 1577836800 1590969600,
         .readE ("a.txt"), .mkdirE [("out"), ("dir")]] :=
  ⟨rfl, rfl⟩

/-- C5 (amended): if a row's `creation_date` (or, when that parses, its
`modified_date`) does not match the format, `extract` aborts with the
`ValueError` of `strptime`, which carries the raw value and the format but
not the row index or field; the filesystem at the abort is exactly the
state after the preceding rows (their files remain — no rollback), and the
bad row and all later rows contribute no filesystem effect and no event. -/
theorem C5_date_abort {pd : String → String → Option Int} {fmt : String}
    {s : Session} {fs s1 : FS} {tr1 : List Event} {pre post : List Row}
    {bad : Row} {raw : String}
    (hsel : selectCols s.csv s.inpCol s.outCol s.cdateCol s.mdateCol =
      .ok (pre ++ bad :: post))
    (hpre : runRows pd fmt s.zip pre fs = .ok s1 tr1)
    (hbad : (pd fmt bad.cdate = none ∧ raw = bad.cdate) ∨
      (∃ c, pd fmt bad.cdate = some c ∧ pd fmt bad.mdate = none ∧
        raw = bad.mdate)) :
    extract pd s fmt fs = .err (.dateErr raw fmt) s1 tr1 := by
  rw [extract_eq_runRows hsel]
  have hplan : planRow pd fmt s.zip bad = .error (.dateErr raw fmt, []) := by
    rcases hbad with ⟨h1, h2⟩ | ⟨c, h1, h2, h3⟩
    · subst h2
      simp only [planRow, h1]
    · subst h3
      simp only [planRow, h1, h2]
  have hrun : runRows pd fmt s.zip (bad :: post) s1 =
      .err (.dateErr raw fmt) s1 [] := runRows_cons_plan_err hplan
  have hall := runRows_append_err hpre hrun
  simpa using hall

/-- C5 witness: the amended claim on the two-row manifest whose second row
has the malformed `modified_date`. -/
theorem C5_date_abort_witness :
    extract pdX (sessionOf zipA csvBadB) ("%Y-%m-%dT%H:%M:%S") emptyFS =
      .err (.dateErr ("BAD") ("%Y-%m-%dT%H:%M:%S"))
        (FS.mk [["out"], ["out", "dir"]] [])
        [.printE ("a.txt") ("out/dir/") 1577836800 1590969600,
         .readE ("a.txt"), .mkdirE [("out"), ("dir")]] :=
  @C5_date_abort pdX ("%Y-%m-%dT%H:%M:%S") (sessionOf zipA csvBadB) emptyFS
    (FS.mk [["out"], ["out", "dir"]] [])
    [.printE ("a.txt") ("out/dir/") 1577836800 1590969600,
     .readE ("a.txt"), .mkdirE [("out"), ("dir")]]
    [rowDir] [] rowBad ("BAD") rfl rfl
    (Or.inr ⟨1577836800, rfl, rfl, rfl⟩)

/-- C6 counterexample: from an empty filesystem the scenario fails: the
code does not create the missing ancestor directory `out`, so `open`
raises and no file `out/a.txt` exists after the call. -/
theorem C6_counterexample :
    extract pdX (sessionOf zipA csvA) ("%Y-%m-%dT%H:%M:%S") emptyFS =
      .err (.fsWriteErr [("out"), ("a.txt")]) emptyFS
        [.printE ("a.txt") ("out/a.txt") 1577836800 1590969600,
         .readE ("a.txt")] ∧
    emptyFS.getFile [("out"), ("a.txt")] = none :=
  ⟨rfl, rfl⟩

/-- C6 (amended): the file scenario holds provided the parent directory
`out` already exists: after `extract`, `out/a.txt` holds exactly the bytes
`hello`, with atime the epoch parsed from `creation_date` and mtime the
epoch parsed from `modified_date`. -/
theorem C6_scenario (pd : String → String → Option Int) (c m : Int)
    (hc : pd ("%Y-%m-%dT%H:%M:%S") ("2020-01-01T00:00:00") = some c)
    (hm : pd ("%Y-%m-%dT%H:%M:%S") ("2020-06-01T00:00:00") = some m) :
    ∃ t tr, extract pd (sessionOf zipA csvA) ("%Y-%m-%dT%H:%M:%S") outFS =
        .ok t tr ∧
      t.getFile [("out"), ("a.txt")] =
        some { data := helloBytes, atime := c, mtime := m } := by
  have hsel : selectCols (sessionOf zipA csvA).csv
      (sessionOf zipA csvA).inpCol (sessionOf zipA csvA).outCol
      (sessionOf zipA csvA).cdateCol (sessionOf zipA csvA).mdateCol =
      .ok [rowA] := rfl
  rw [extract_eq_runRows hsel]
  have hz : zipRead zipA ("a.txt") = .ok helloBytes := rfl
  have hp : planRow pd ("%Y-%m-%dT%H:%M:%S") zipA rowA =
      .ok ⟨c, m, helloBytes, false, [("out"), ("a.txt")]⟩ :=
    planRow_ok_of hc hm hz
  have hw : outFS.write [("out"), ("a.txt")]
      { data := helloBytes, atime := c, mtime := m } =
      some { outFS with
        files := ([("out"), ("a.txt")],
          { data := helloBytes, atime := c, mtime := m }) :: outFS.files } :=
    write_eq_some_of (by decide) (by decide) (by decide)
  have ha : RowPlan.applyFS ⟨c, m, helloBytes, false, [("out"), ("a.txt")]⟩
      outFS = some { outFS with
        files := ([("out"), ("a.txt")],
          { data := helloBytes, atime := c, mtime := m }) :: outFS.files } := by
    unfold RowPlan.applyFS
    simpa using hw
  refine ⟨_, _, runRows_cons_ok_ok hp ha runRows_nil, ?_⟩
  rfl

/-- C6 witness: the amended claim at the concrete date parser. -/
theorem C6_scenario_witness :
    ∃ t tr, extract pdX (sessionOf zipA csvA) ("%Y-%m-%dT%H:%M:%S") outFS =
        .ok t tr ∧
      t.getFile [("out"), ("a.txt")] =
        some { data := helloBytes, atime := 1577836800,
               mtime := 1590969600 } :=
  C6_scenario pdX 1577836800 1590969600 rfl rfl

/-- C2 counterexample: `extract` does not create missing ancestor
directories for a file destination: from the empty filesystem the single
file row fails at `open` (the parent `out` is missing), the run aborts, and
the final filesystem is unchanged — in particular no ancestor directory of
`out/a.txt` was created before the write was attempted. -/
theorem C2_counterexample :
    extract pdX (sessionOf zipA csvA) ("%Y-%m-%dT%H:%M:%S") emptyFS =
      .err (.fsWriteErr [("out"), ("a.txt")]) emptyFS
        [.printE ("a.txt") ("out/a.txt") 1577836800 1590969600,
         .readE ("a.txt")] ∧
    emptyFS.dirs = [] :=
  ⟨rfl, rfl⟩

/-- C2 (amended): for a manifest record whose destination does not end
with the separator, a successful `extract` writes the entry's raw bytes to
the destination (overwriting in full: its record is the value looked up
afterwards, provided no later row writes the same path) with
(atime, mtime) = (parsed creation, parsed modified); but it creates no
ancestor directories: the directories after the run are exactly the initial
ones plus those ensured by directory rows, so a file row with a missing
parent makes the run abort instead. -/
theorem C2_file_rows {pd : String → String → Option Int} {fmt : String}
    {s : Session} {fs t : FS} {tr : List Event} {rows pre post : List Row}
    {r : Row}
    (hsel : selectCols s.csv s.inpCol s.outCol s.cdateCol s.mdateCol =
      .ok rows)
    (hrows : rows = pre ++ r :: post) (hfile : endsWithSep r.dest = false)
    (hlast : ∀ r' ∈ post, ¬ r'.writesTo (splitPath r.dest))
    (hok : extract pd s fmt fs = .ok t tr) :
    (∃ c m data, pd fmt r.cdate = some c ∧ pd fmt r.mdate = some m ∧
      zipRead s.zip r.inp = .ok data ∧
      t.getFile (splitPath r.dest) =
        some { data := data, atime := c, mtime := m }) ∧
    (∀ q, q ∈ t.dirs ↔ q ∈ fs.dirs ∨ dirsMadeBy rows q) := by
  rw [extract_eq_runRows hsel] at hok
  refine ⟨?_, fun q => runRows_ok_dirs_char hok q⟩
  subst hrows
  obtain ⟨t1, tr1, tr2, hx, hy, htr⟩ := runRows_append_ok_inv hok
  obtain ⟨pl, fs1, tr2a, hp, ha, hrest, htr2⟩ := runRows_cons_ok_inv hy
  obtain ⟨hc, hm, hz, hdir, hpath⟩ := planRow_ok_inv hp
  have htd : pl.toDir = false := by rw [hdir, hfile]
  have ha' : t1.write pl.path ⟨pl.data, pl.c, pl.m⟩ = some fs1 := by
    unfold RowPlan.applyFS at ha
    rwa [if_neg (by simp [htd])] at ha
  refine ⟨pl.c, pl.m, pl.data, hc, hm, hz, ?_⟩
  have hstable : t.getFile (splitPath r.dest) =
      fs1.getFile (splitPath r.dest) :=
    runRows_ok_stable hrest (fun r' hr' => hlast r' hr')
  rw [hstable, ← hpath, getFile_write_self ha']

/-- C2 witness: the amended claim on the one-row file manifest run from a
filesystem already containing the parent directory `out`. -/
theorem C2_file_rows_witness :
    (∃ c m data, pdX ("%Y-%m-%dT%H:%M:%S") rowA.cdate = some c ∧
      pdX ("%Y-%m-%dT%H:%M:%S") rowA.mdate = some m ∧
      zipRead (sessionOf zipA csvA).zip rowA.inp = .ok data ∧
      (FS.mk [["out"]]
        [([("out"), ("a.txt")],
          { data := helloBytes, atime := 1577836800,
            mtime := 1590969600 })]).getFile (splitPath rowA.dest) =
        some { data := data, atime := c, mtime := m }) ∧
    (∀ q, q ∈ (FS.mk [["out"]]
        [([("out"), ("a.txt")],
          { data := helloBytes, atime := 1577836800,
            mtime := 1590969600 })]).dirs ↔
      q ∈ outFS.dirs ∨ dirsMadeBy [rowA] q) :=
  @C2_file_rows pdX ("%Y-%m-%dT%H:%M:%S") (sessionOf zipA csvA) outFS
    (FS.mk [["out"]]
      [([("out"), ("a.txt")],
        { data := helloBytes, atime := 1577836800, mtime := 1590969600 })])
    [.printE ("a.txt") ("out/a.txt") 1577836800 1590969600, .readE ("a.txt"),
     .writeE [("out"), ("a.txt")] helloBytes 1577836800 1590969600]
    [rowA] [] [] rowA rfl rfl rfl
    (fun r' h => absurd h (List.not_mem_nil r')) rfl

/-- C7: for every successful `extract` run, the filesystem effects of the
trace are in order-preserving one-to-one correspondence with the manifest
rows: the selected rows are exactly the manifest's data rows, the number of
effects equals the number of rows, and the i-th effect is the directory
creation or file write prescribed by the i-th row. -/
theorem C7_effects {pd : String → String → Option Int} {fmt : String}
    {s : Session} {fs t : FS} {tr : List Event} {rows : List Row}
    (hsel : selectCols s.csv s.inpCol s.outCol s.cdateCol s.mdateCol =
      .ok rows)
    (hok : extract pd s fmt fs = .ok t tr) :
    rows.length = s.csv.rows.length ∧
    (fsEffects tr).length = rows.length ∧
    List.Forall₂ (effectFor pd fmt s.zip) rows (fsEffects tr) := by
  rw [extract_eq_runRows hsel] at hok
  have h2 := runRows_ok_effects hok
  refine ⟨?_, (List.Forall₂.length_eq h2).symm, h2⟩
  rw [selectCols_ok_inv hsel]
  exact List.length_map _ _

/-- C7 witness: the claim on the two-row manifest (directory row then file
row), which produces exactly two effects in manifest order. -/
theorem C7_effects_witness :
    [rowOut, rowA].length = (sessionOf zipA csvTwo).csv.rows.length ∧
    (fsEffects
      [.printE ("a.txt") ("out/") 1577836800 1590969600, .readE ("a.txt"),
       .mkdirE [("out")],
       .printE ("a.txt") ("out/a.txt") 1577836800 1590969600,
       .readE ("a.txt"),
       .writeE [("out"), ("a.txt")] helloBytes 1577836800
         1590969600]).length = [rowOut, rowA].length ∧
    List.Forall₂ (effectFor pdX ("%Y-%m-%dT%H:%M:%S")
        (sessionOf zipA csvTwo).zip)
      [rowOut, rowA]
      (fsEffects
        [.printE ("a.txt") ("out/") 1577836800 1590969600, .readE ("a.txt"),
         .mkdirE [("out")],
         .printE ("a.txt") ("out/a.txt") 1577836800 1590969600,
         .readE ("a.txt"),
         .writeE [("out"), ("a.txt")] helloBytes 1577836800 1590969600]) :=
  @C7_effects pdX ("%Y-%m-%dT%H:%M:%S") (sessionOf zipA csvTwo) emptyFS
    (FS.mk [["out"]]
      [([("out"), ("a.txt")],
        { data := helloBytes, atime := 1577836800, mtime := 1590969600 })])
    [.printE ("a.txt") ("out/") 1577836800 1590969600, .readE ("a.txt"),
     .mkdirE [("out")],
     .printE ("a.txt") ("out/a.txt") 1577836800 1590969600, .readE ("a.txt"),
     .writeE [("out"), ("a.txt")] helloBytes 1577836800 1590969600]
    [rowOut, rowA] rfl rfl

/-- C8: running `extract` twice on the same session with the same format
and no intervening state change is idempotent: if the first run succeeds
from a well-formed filesystem, the second run succeeds with the identical
trace, and the final filesystem is extensionally identical — the same
directories and, at every path, the same file bytes and the same
(atime, mtime). -/
theorem C8_idempotent {pd : String → String → Option Int} {fmt : String}
    {s : Session} {fs t : FS} {tr : List Event} (hwf : fs.wf)
    (hok : extract pd s fmt fs = .ok t tr) :
    ∃ t', extract pd s fmt t = .ok t' tr ∧
      (∀ q, q ∈ t'.dirs ↔ q ∈ t.dirs) ∧
      (∀ q : Path, t'.getFile q = t.getFile q) := by
  cases hsel : selectCols s.csv s.inpCol s.outCol s.cdateCol s.mdateCol with
  | error e =>
    rw [extract_col_err hsel] at hok
    cases hok
  | ok rows =>
    rw [extract_eq_runRows hsel] at hok
    rw [extract_eq_runRows hsel]
    exact runRows_idem_aux hwf hok (fun q hq => runRows_ok_dirs_mono hok hq)
      (fun q => Iff.rfl) (fun q => Iff.rfl) (fun q => Or.inl rfl)

/-- C8 witness: idempotence at the concrete two-row manifest run from the
empty filesystem. -/
theorem C8_idempotent_witness :
    ∃ t', extract pdX (sessionOf zipA csvTwo) ("%Y-%m-%dT%H:%M:%S")
        (FS.mk [["out"]]
          [([("out"), ("a.txt")],
            { data := helloBytes, atime := 1577836800,
              mtime := 1590969600 })]) = .ok t'
        [.printE ("a.txt") ("out/") 1577836800 1590969600, .readE ("a.txt"),
         .mkdirE [("out")],
         .printE ("a.txt") ("out/a.txt") 1577836800 1590969600,
         .readE ("a.txt"),
         .writeE [("out"), ("a.txt")] helloBytes 1577836800 1590969600] ∧
      (∀ q, q ∈ t'.dirs ↔ q ∈ (FS.mk [["out"]]
        [([("out"), ("a.txt")],
          { data := helloBytes, atime := 1577836800,
            mtime := 1590969600 })]).dirs) ∧
      (∀ q : Path, t'.getFile q = (FS.mk [["out"]]
        [([("out"), ("a.txt")],
          { data := helloBytes, atime := 1577836800,
            mtime := 1590969600 })]).getFile q) :=
  @C8_idempotent pdX ("%Y-%m-%dT%H:%M:%S") (sessionOf zipA csvTwo) emptyFS
    (FS.mk [["out"]]
      [([("out"), ("a.txt")],
        { data := helloBytes, atime := 1577836800, mtime := 1590969600 })])
    [.printE ("a.txt") ("out/") 1577836800 1590969600, .readE ("a.txt"),
     .mkdirE [("out")],
     .printE ("a.txt") ("out/a.txt") 1577836800 1590969600, .readE ("a.txt"),
     .writeE [("out"), ("a.txt")] helloBytes 1577836800 1590969600]
    (fun _ _ => rfl) rfl

end ExtractZipModel
